import Mathlib

/-
  Verification development for libnscache (src/src/lib.rs), a transparent
  interception layer caching getaddrinfo()/freeaddrinfo() calls.

  Shallow embedding conventions:
  * pointers (`*mut addrinfo`) are modelled as opaque `Nat` handles
    (pointer-as-key identity, cf. AddrInfoWrapper);
  * Rust `String`s are modelled as their UTF-8 byte lists (`List Nat`);
    `CStr::to_str()` validity is modelled by an explicit UTF-8 validator,
    and the `unwrap()` panic is modelled as `Option.none`;
  * `HashMap`s are modelled as association lists with key-unique
    insert/erase; `VecDeque` as a `List` (front = head);
  * machine integers: `i32`/`c_int` as `Int`; `u64` timestamps as `Nat`
    with explicit wrapping subtraction modulo 2^64;
  * the external resolver (`orig_getaddrinfo`) is an oracle: its return
    value and the pointer it writes into `*res` are inputs of the model;
    `orig_freeaddrinfo` invocations are recorded in the output.
-/

namespace LibNSCache

set_option maxRecDepth 8000

/-- src/src/lib.rs line 33: how many milliseconds to cache resolver data. -/
def CACHE_LIFETIME_MS : Nat := 1000

/-- src/src/lib.rs line 36: maximum amount of unfreed and unused pointers. -/
def DEFER_CALL_COUNT : Nat := 1000

/-- libc constant AF_UNSPEC. -/
def AF_UNSPEC : Int := 0

/-- libc constant AI_V4MAPPED (0x0008 on Linux). -/
def AI_V4MAPPED : Int := 8

/-- libc constant AI_ADDRCONFIG (0x0020 on Linux). -/
def AI_ADDRCONFIG : Int := 32

/-- Is `b` a UTF-8 continuation byte (0x80..=0xBF)? -/
def contB (b : Nat) : Bool := 0x80 ≤ b && b ≤ 0xBF

/-- UTF-8 validity of a byte sequence, exactly the condition under which
Rust's `CStr::to_str` succeeds (RFC 3629 well-formedness). -/
def validUtf8 : List Nat → Bool
  | [] => true
  | b :: rest =>
    if b ≤ 0x7F then validUtf8 rest
    else if b < 0xC2 then false
    else if b ≤ 0xDF then
      match rest with
      | c1 :: r => contB c1 && validUtf8 r
      | [] => false
    else if b = 0xE0 then
      match rest with
      | c1 :: c2 :: r => (0xA0 ≤ c1 && c1 ≤ 0xBF) && contB c2 && validUtf8 r
      | _ => false
    else if b = 0xED then
      match rest with
      | c1 :: c2 :: r => (0x80 ≤ c1 && c1 ≤ 0x9F) && contB c2 && validUtf8 r
      | _ => false
    else if b ≤ 0xEF then
      match rest with
      | c1 :: c2 :: r => contB c1 && contB c2 && validUtf8 r
      | _ => false
    else if b = 0xF0 then
      match rest with
      | c1 :: c2 :: c3 :: r => (0x90 ≤ c1 && c1 ≤ 0xBF) && contB c2 && contB c3 && validUtf8 r
      | _ => false
    else if b ≤ 0xF3 then
      match rest with
      | c1 :: c2 :: c3 :: r => contB c1 && contB c2 && contB c3 && validUtf8 r
      | _ => false
    else if b = 0xF4 then
      match rest with
      | c1 :: c2 :: c3 :: r => (0x80 ≤ c1 && c1 ≤ 0x8F) && contB c2 && contB c3 && validUtf8 r
      | _ => false
    else false

/-- src/src/lib.rs lines 41-47 (`from_raw`): a null pointer maps to the
empty string; a non-null pointer is read as a C string and decoded with
`CStr::to_str().unwrap()`, which panics on invalid UTF-8 (modelled as
`none`).  The input is `none` for a null pointer, `some bs` for a
pointer to the NUL-terminated byte sequence `bs`. -/
def from_raw (chars : Option (List Nat)) : Option (List Nat) :=
  match chars with
  | none => some []
  | some bs => if validUtf8 bs then some bs else none

/-- The hint fields of a `libc::addrinfo` structure that
`GetAddrInfoParams::new` reads. -/
structure Hints where
  ai_flags : Int
  ai_family : Int
  ai_socktype : Int
  ai_protocol : Int
deriving DecidableEq

/-- src/src/lib.rs lines 74-82: the canonical request key (cache key). -/
structure GetAddrInfoParams where
  hostname : List Nat
  servname : List Nat
  flags : Int
  family : Int
  socktype : Int
  protocol : Int
deriving DecidableEq

/-- src/src/lib.rs lines 84-106 (`GetAddrInfoParams::new`): canonicalize
the raw call parameters; a null `hints` pointer maps to the documented
defaults.  `none` models a panic inside `from_raw`. -/
def GetAddrInfoParams.new (hostname servname : Option (List Nat)) (hints : Option Hints) :
    Option GetAddrInfoParams :=
  match from_raw hostname, from_raw servname with
  | some hn, some sn =>
    match hints with
    | none => some ⟨hn, sn, Int.ofNat (AI_V4MAPPED.toNat ||| AI_ADDRCONFIG.toNat), AF_UNSPEC, 0, 0⟩
    | some h => some ⟨hn, sn, h.ai_flags, h.ai_family, h.ai_socktype, h.ai_protocol⟩
  | _, _ => none

/-- src/src/lib.rs lines 108-112: a cached response. -/
structure Response where
  timestamp : Nat
  ai : Nat
  retval : Int
deriving DecidableEq

/-- src/src/lib.rs lines 130-134: per-handle reference-count record. -/
structure RefCount where
  refs : Int
  deleted : Bool
deriving DecidableEq

/-- Association-list lookup (models `HashMap::get`). -/
def Assoc.find {α β : Type} [DecidableEq α] : List (α × β) → α → Option β
  | [], _ => none
  | (k, v) :: t, a => if k = a then some v else Assoc.find t a

/-- Remove every binding of a key (models `HashMap::remove`; bindings are
key-unique in all states the operations produce). -/
def Assoc.erase {α β : Type} [DecidableEq α] : List (α × β) → α → List (α × β)
  | [], _ => []
  | (k, v) :: t, a => if k = a then Assoc.erase t a else (k, v) :: Assoc.erase t a

/-- Insert or replace a binding (models `HashMap::insert`). -/
def Assoc.insert {α β : Type} [DecidableEq α] (l : List (α × β)) (a : α) (b : β) :
    List (α × β) :=
  (a, b) :: Assoc.erase l a

/-- The four global structures of src/src/lib.rs (lines 120-124, 136-139):
`CACHE`, `PARAMS` (reverse index), `REF_COUNTS` and `DEFER_QUEUE`. -/
structure CacheState where
  cache : List (GetAddrInfoParams × Response)
  params : List (Nat × GetAddrInfoParams)
  refCounts : List (Nat × RefCount)
  deferQueue : List Nat
deriving DecidableEq

/-- The process-start state: all four structures empty. -/
def initState : CacheState := ⟨[], [], [], []⟩

/-- Wrapping `u64` subtraction, the semantics of `timestamp - value.timestamp`
in release builds. -/
def sub64 (a b : Nat) : Nat := ((a % 2 ^ 64) + 2 ^ 64 - (b % 2 ^ 64)) % 2 ^ 64

/-- src/src/lib.rs lines 141-168 (`inc_ref_count`): increment a handle's
reference count, creating the entry at `{refs := 1, deleted := false}` if
absent; returns a copy of the resulting record. -/
def inc_ref_count (s : CacheState) (ptr : Nat) : CacheState × RefCount :=
  match Assoc.find s.refCounts ptr with
  | some c =>
    let c2 : RefCount := ⟨c.refs + 1, c.deleted⟩
    ({ s with refCounts := Assoc.insert s.refCounts ptr c2 }, c2)
  | none =>
    let c2 : RefCount := ⟨1, false⟩
    ({ s with refCounts := Assoc.insert s.refCounts ptr c2 }, c2)

/-- src/src/lib.rs lines 170-188 (`defer_delete_ptr`): decrement the
handle's reference count; on the first observed release (`deleted` still
false) push the handle onto the deferred-deletion queue and set `deleted`.
An unknown handle is reported and left untouched.  The second component
collects diagnostic messages printed. -/
def defer_delete_ptr (s : CacheState) (ptr : Nat) : CacheState × List String :=
  match Assoc.find s.refCounts ptr with
  | some c =>
    if c.deleted then
      ({ s with refCounts := Assoc.insert s.refCounts ptr ⟨c.refs - 1, c.deleted⟩ }, [])
    else
      ({ s with refCounts := Assoc.insert s.refCounts ptr ⟨c.refs - 1, true⟩,
                deferQueue := s.deferQueue ++ [ptr] }, [])
  | none => (s, ["Logic error: deleting an unknown pointer"])

/-- src/src/lib.rs lines 190-205 (`get_ref_count`): read a handle's
reference-count record; an unknown handle is reported and yields the
sentinel `{refs := -1, deleted := false}`. -/
def get_ref_count (s : CacheState) (ptr : Nat) : RefCount × List String :=
  match Assoc.find s.refCounts ptr with
  | some c => (c, [])
  | none => (⟨-1, false⟩, ["Logic error: asking refcount on unknown pointer"])

/-- Result of the first locked section of `getaddrinfo`: either a fresh
cache hit carrying the cached handle and status, or a miss. -/
inductive LookupOutcome where
  | hit (ai : Nat) (retval : Int)
  | miss
deriving DecidableEq

/-- src/src/lib.rs lines 223-241, first locked section of `getaddrinfo`:
look up the canonical key; on a fresh hit increment the handle's
reference count and report the hit; on a stale hit remove the reverse
index entry for the stale handle and the cache entry; otherwise a miss. -/
def gai_locked1 (s : CacheState) (p : GetAddrInfoParams) (t1 : Nat) :
    CacheState × LookupOutcome :=
  match Assoc.find s.cache p with
  | some v =>
    if sub64 t1 v.timestamp < CACHE_LIFETIME_MS then
      ((inc_ref_count s v.ai).1, .hit v.ai v.retval)
    else
      ({ s with params := Assoc.erase s.params v.ai,
                cache := Assoc.erase s.cache p }, .miss)
  | none => (s, .miss)

/-- src/src/lib.rs lines 262-271, second locked section of `getaddrinfo`
(only reached after a successful real call): if a racing insert for the
same key exists, drop the reverse index entry of its handle; then
increment the new handle's reference count and insert the response into
the cache and the reverse index. -/
def gai_locked2 (s : CacheState) (p : GetAddrInfoParams) (realAi : Nat) (realRet : Int)
    (t2 : Nat) : CacheState :=
  let s1 :=
    match Assoc.find s.cache p with
    | some v => { s with params := Assoc.erase s.params v.ai }
    | none => s
  let s2 := (inc_ref_count s1 realAi).1
  { s2 with cache := Assoc.insert s2.cache p ⟨t2, realAi, realRet⟩,
            params := Assoc.insert s2.params realAi p }

/-- Everything the `getaddrinfo` override produces: the new global state,
the returned status code, the handle written to `*res` by this layer
(`none` when it writes nothing), and whether the real resolver was
invoked. -/
structure GaiOutcome where
  state : CacheState
  ret : Int
  res : Option Nat
  realCalled : Bool
deriving DecidableEq

/-- src/src/lib.rs lines 211-274 (`getaddrinfo` override), sequential
composition of the two locked sections.  `t1` is the timestamp taken on
entry, `realRet`/`realAi` the status and pointer produced by the real
resolver (an oracle input), `t2` the timestamp taken after the real
call.  Failures (`realRet < 0`) are returned verbatim and never cached. -/
def getaddrinfo (s : CacheState) (p : GetAddrInfoParams) (t1 : Nat) (realRet : Int)
    (realAi : Nat) (t2 : Nat) : GaiOutcome :=
  match gai_locked1 s p t1 with
  | (s1, .hit ai rv) => ⟨s1, rv, some ai, false⟩
  | (s1, .miss) =>
    if realRet < 0 then ⟨s1, realRet, none, true⟩
    else ⟨gai_locked2 s1 p realAi realRet t2, realRet, some realAi, true⟩

/-- Everything the `freeaddrinfo` override produces: the new global
state, the handle passed to the real `freeaddrinfo` (`none` when no
physical free happened), and the diagnostics printed. -/
structure FaiOutcome where
  state : CacheState
  freed : Option Nat
  diags : List String
deriving DecidableEq

/-- src/src/lib.rs lines 277-302 (`freeaddrinfo` override): run
`defer_delete_ptr`; then, if the deferred-deletion queue is over
capacity, pop its oldest handle; if that handle still has a positive
reference count, return (dropping it); otherwise remove its
reference-count record, remove its reverse index entry and (when one
exists) the corresponding cache entry, and invoke the real free on it. -/
def freeaddrinfo (s : CacheState) (ai : Nat) : FaiOutcome :=
  let r1 := defer_delete_ptr s ai
  let s1 := r1.1
  if s1.deferQueue.length > DEFER_CALL_COUNT then
    match s1.deferQueue with
    | [] => ⟨s1, none, r1.2⟩
    | deferred :: rest =>
      let s2 : CacheState := { s1 with deferQueue := rest }
      let r2 := get_ref_count s2 deferred
      if r2.1.refs > 0 then ⟨s2, none, r1.2 ++ r2.2⟩
      else
        let s3 : CacheState := { s2 with refCounts := Assoc.erase s2.refCounts deferred }
        let s4 : CacheState :=
          match Assoc.find s3.params deferred with
          | some pk => { s3 with params := Assoc.erase s3.params deferred,
                                 cache := Assoc.erase s3.cache pk }
          | none => { s3 with params := Assoc.erase s3.params deferred }
        ⟨s4, some deferred, r1.2 ++ r2.2⟩
  else ⟨s1, none, r1.2⟩

/-- A single intercepted call: a resolve (with its oracle inputs) or a
release. -/
inductive Op where
  | resolve (p : GetAddrInfoParams) (t1 : Nat) (realRet : Int) (realAi : Nat) (t2 : Nat)
  | free (ai : Nat)
deriving DecidableEq

/-- One intercepted call, returning the new state and the handle
physically freed by it, if any. -/
def step (s : CacheState) : Op → CacheState × Option Nat
  | .resolve p t1 r a t2 => ((getaddrinfo s p t1 r a t2).state, none)
  | .free ai => ((freeaddrinfo s ai).state, (freeaddrinfo s ai).freed)

/-- Run a trace of intercepted calls, collecting every handle passed to
the real `freeaddrinfo` in order. -/
def run (s : CacheState) : List Op → CacheState × List Nat
  | [] => (s, [])
  | op :: rest =>
    let r := step s op
    let r2 := run r.1 rest
    (r2.1, r.2.toList ++ r2.2)

/-- Reverse-index consistency: a handle has a `PARAMS` entry exactly when
it is the live value of some `CACHE` entry, and the two maps agree on
which key owns which handle. -/
def ParamsCacheInv (s : CacheState) : Prop :=
  (∀ x k, Assoc.find s.params x = some k →
    ∃ r, Assoc.find s.cache k = some r ∧ r.ai = x) ∧
  (∀ k r, Assoc.find s.cache k = some r → Assoc.find s.params r.ai = some k)

/-- Deferred-queue uniqueness: the queue holds no duplicate handle, and
every enqueued handle has a reference-count record whose `deleted` flag
is set. -/
def QueueInv (s : CacheState) : Prop :=
  s.deferQueue.Nodup ∧
  ∀ x ∈ s.deferQueue, (Assoc.find s.refCounts x).map RefCount.deleted = some true

/-- A concrete canonical key (hostname "a", defaults). -/
def pKey : GetAddrInfoParams := ⟨[97], [], 40, 0, 0, 0⟩

/-- A second, distinct canonical key (hostname "b", defaults). -/
def qKey : GetAddrInfoParams := ⟨[98], [], 40, 0, 0, 0⟩

/-- `N` resolve calls for `pKey`, all at time 0: a fresh miss that the
real resolver answers with handle `h`, followed by `N - 1` cache hits. -/
def resolveOps (N h : Nat) : List Op :=
  Op.resolve pKey 0 0 h 0 :: List.replicate (N - 1) (Op.resolve pKey 0 0 0 0)

/-- `N` release calls on handle `h`. -/
def releaseOps (N h : Nat) : List Op :=
  List.replicate N (Op.free h)

/-- One filler resolve/release pair on `qKey` at time `1000 * i`, with a
fresh handle `h + i` from the real resolver. -/
def fillPair (h i : Nat) : List Op :=
  [Op.resolve qKey (1000 * i) 0 (h + i) (1000 * i), Op.free (h + i)]

/-- `n` filler pairs, numbered 1 through `n`. -/
def fillOps (h : Nat) : Nat → List Op
  | 0 => []
  | n + 1 => fillOps h n ++ fillPair h (n + 1)

/-- The borrow-accounting scenario of the specification: `N` resolves
returning `h`, then `N` releases of `h`, then enough unrelated traffic
that queue capacity forces the eviction of `h`. -/
def scenario (N h : Nat) : List Op :=
  resolveOps N h ++ releaseOps N h ++ fillOps h 1000

/-- State after `n` resolves of `pKey` returning `h` (borrow count `n`). -/
def stateA (h n : Nat) : CacheState :=
  ⟨[(pKey, ⟨0, h, 0⟩)], [(h, pKey)], [(h, ⟨(n : Int), false⟩)], []⟩

/-- State after the releases have begun: borrow count `r`, `h` enqueued. -/
def stateB (h : Nat) (r : Int) : CacheState :=
  ⟨[(pKey, ⟨0, h, 0⟩)], [(h, pKey)], [(h, ⟨r, true⟩)], [h]⟩

/-- Reference counts after `i` filler pairs: `h` and `h+1 … h+i` all
fully released and flagged. -/
def rcC (h : Nat) : Nat → List (Nat × RefCount)
  | 0 => [(h, ⟨0, true⟩)]
  | i + 1 => (h + (i + 1), ⟨0, true⟩) :: rcC h i

/-- Queue contents contributed by the first `i` filler pairs. -/
def qC (h : Nat) : Nat → List Nat
  | 0 => []
  | i + 1 => qC h i ++ [h + (i + 1)]

/-- Full state after `i ≥ 1` filler pairs. -/
def stateC (h i : Nat) : CacheState :=
  ⟨[(qKey, ⟨1000 * i, h + i, 0⟩), (pKey, ⟨0, h, 0⟩)],
   [(h + i, qKey), (h, pKey)],
   rcC h i,
   h :: qC h i⟩

/-- State within filler pair `i ≥ 1`: after its resolve, before its
release (handle `h + i` borrowed once). -/
def stateCr (h i : Nat) : CacheState :=
  ⟨[(qKey, ⟨1000 * i, h + i, 0⟩), (pKey, ⟨0, h, 0⟩)],
   [(h + i, qKey), (h, pKey)],
   (h + i, ⟨1, false⟩) :: rcC h (i - 1),
   h :: qC h (i - 1)⟩

/-- The record `inc_ref_count` stores for a handle: the old record with
`refs` incremented, or a fresh `{refs := 1, deleted := false}`. -/
def bumped (rc : List (Nat × RefCount)) (x : Nat) : RefCount :=
  match Assoc.find rc x with
  | some c => ⟨c.refs + 1, c.deleted⟩
  | none => ⟨1, false⟩

/-! ### Association-list lemmas -/

theorem Assoc.find_erase {α β : Type} [DecidableEq α] (l : List (α × β)) (a x : α) :
    Assoc.find (Assoc.erase l a) x = if x = a then none else Assoc.find l x := by
  induction l with
  | nil => simp [Assoc.erase, Assoc.find]
  | cons kv t ih =>
    obtain ⟨k, v⟩ := kv
    by_cases hxa : x = a
    · subst hxa
      simp only [Assoc.erase, Assoc.find, if_pos rfl]
      by_cases hkx : k = x
      · simp [hkx, ih]
      · simp [hkx, Assoc.find, ih]
    · simp only [Assoc.erase, Assoc.find, if_neg hxa]
      by_cases hka : k = a
      · subst hka
        have hkx : ¬ k = x := fun hh => hxa hh.symm
        simp [ih, hxa, hkx]
      · rw [if_neg hka]
        simp only [Assoc.find]
        by_cases hkx : k = x
        · simp [hkx]
        · simp [hkx, ih, hxa]

theorem Assoc.find_insert {α β : Type} [DecidableEq α] (l : List (α × β)) (a x : α) (b : β) :
    Assoc.find (Assoc.insert l a b) x = if x = a then some b else Assoc.find l x := by
  rcases eq_or_ne x a with h | h
  · simp [Assoc.insert, Assoc.find, h]
  · simp [Assoc.insert, Assoc.find, h, Ne.symm h, Assoc.find_erase]

theorem Assoc.erase_of_find_none {α β : Type} [DecidableEq α] (l : List (α × β)) (a : α)
    (h : Assoc.find l a = none) : Assoc.erase l a = l := by
  induction l with
  | nil => rfl
  | cons kv t ih =>
    obtain ⟨k, v⟩ := kv
    by_cases hk : k = a
    · simp [Assoc.find, hk] at h
    · simp only [Assoc.find, if_neg hk] at h
      simp [Assoc.erase, hk, ih h]

/-! ### Small facts about the operations -/

theorem run_append (s : CacheState) (l1 l2 : List Op) :
    run s (l1 ++ l2) =
      ((run (run s l1).1 l2).1, (run s l1).2 ++ (run (run s l1).1 l2).2) := by
  induction l1 generalizing s with
  | nil => simp [run]
  | cons op t ih => simp [run, ih]

theorem inc_ref_count_fields (s : CacheState) (x : Nat) :
    (inc_ref_count s x).1.cache = s.cache ∧ (inc_ref_count s x).1.params = s.params ∧
    (inc_ref_count s x).1.deferQueue = s.deferQueue := by
  unfold inc_ref_count
  cases Assoc.find s.refCounts x <;> simp

theorem find_inc_self_of_some (s : CacheState) (x : Nat) (c : RefCount)
    (h : Assoc.find s.refCounts x = some c) :
    Assoc.find (inc_ref_count s x).1.refCounts x = some ⟨c.refs + 1, c.deleted⟩ := by
  unfold inc_ref_count
  simp [h, Assoc.find_insert]

theorem find_inc_self_of_none (s : CacheState) (x : Nat)
    (h : Assoc.find s.refCounts x = none) :
    Assoc.find (inc_ref_count s x).1.refCounts x = some ⟨1, false⟩ := by
  unfold inc_ref_count
  simp [h, Assoc.find_insert]

theorem find_inc_other (s : CacheState) (x y : Nat) (h : y ≠ x) :
    Assoc.find (inc_ref_count s x).1.refCounts y = Assoc.find s.refCounts y := by
  unfold inc_ref_count
  cases Assoc.find s.refCounts x <;> simp [Assoc.find_insert, h]

theorem gai_locked1_hit (s : CacheState) (p : GetAddrInfoParams) (t1 : Nat)
    (s1 : CacheState) (ai : Nat) (rv : Int)
    (h : gai_locked1 s p t1 = (s1, .hit ai rv)) :
    ∃ v : Response, Assoc.find s.cache p = some v ∧ v.ai = ai ∧ v.retval = rv ∧
      sub64 t1 v.timestamp < CACHE_LIFETIME_MS ∧ s1 = (inc_ref_count s v.ai).1 := by
  unfold gai_locked1 at h
  split at h
  next v heq =>
    split at h
    next ht =>
      injection h with h1 h2
      injection h2 with ha hr
      exact ⟨v, heq, ha, hr, ht, h1.symm⟩
    next ht =>
      injection h with h1 h2
      simp at h2
  next heq =>
    injection h with h1 h2
    simp at h2

theorem gai_locked1_miss (s : CacheState) (p : GetAddrInfoParams) (t1 : Nat)
    (s1 : CacheState) (h : gai_locked1 s p t1 = (s1, .miss)) :
    Assoc.find s1.cache p = none ∧ s1.refCounts = s.refCounts ∧
    s1.deferQueue = s.deferQueue ∧
    (∀ x k, Assoc.find s1.params x = some k → Assoc.find s.params x = some k) := by
  unfold gai_locked1 at h
  split at h
  next v heq =>
    split at h
    next ht =>
      injection h with h1 h2
      simp at h2
    next ht =>
      injection h with h1 h2
      subst h1
      refine ⟨?_, rfl, rfl, ?_⟩
      · simp [Assoc.find_erase]
      · intro x k hk
        simp only [Assoc.find_erase] at hk
        split at hk
        · exact absurd hk (by simp)
        · exact hk
  next heq =>
    injection h with h1 h2
    subst h1
    exact ⟨heq, rfl, rfl, fun x k hk => hk⟩

theorem inc_refCounts (s : CacheState) (x : Nat) :
    (inc_ref_count s x).1.refCounts = Assoc.insert s.refCounts x (bumped s.refCounts x) := by
  unfold inc_ref_count bumped
  cases Assoc.find s.refCounts x <;> simp

theorem gai_locked1_fresh_hit (s : CacheState) (p : GetAddrInfoParams) (t1 : Nat)
    (v : Response) (hv : Assoc.find s.cache p = some v)
    (hfr : sub64 t1 v.timestamp < CACHE_LIFETIME_MS) :
    gai_locked1 s p t1 = ((inc_ref_count s v.ai).1, .hit v.ai v.retval) := by
  unfold gai_locked1
  simp only [hv]
  rw [if_pos hfr]

theorem gai_locked1_stale (s : CacheState) (p : GetAddrInfoParams) (t1 : Nat)
    (v : Response) (hv : Assoc.find s.cache p = some v)
    (hstale : ¬ sub64 t1 v.timestamp < CACHE_LIFETIME_MS) :
    gai_locked1 s p t1 =
      ({ s with params := Assoc.erase s.params v.ai, cache := Assoc.erase s.cache p },
       .miss) := by
  unfold gai_locked1
  simp only [hv]
  rw [if_neg hstale]

theorem getaddrinfo_of_hit (s : CacheState) (p : GetAddrInfoParams) (t1 : Nat) (r : Int)
    (a t2 : Nat) (s1 : CacheState) (ai : Nat) (rv : Int)
    (h : gai_locked1 s p t1 = (s1, .hit ai rv)) :
    getaddrinfo s p t1 r a t2 = ⟨s1, rv, some ai, false⟩ := by
  unfold getaddrinfo
  rw [h]

theorem getaddrinfo_of_miss (s : CacheState) (p : GetAddrInfoParams) (t1 : Nat) (r : Int)
    (a t2 : Nat) (s1 : CacheState) (h : gai_locked1 s p t1 = (s1, .miss)) :
    getaddrinfo s p t1 r a t2 =
      if r < 0 then ⟨s1, r, none, true⟩
      else ⟨gai_locked2 s1 p a r t2, r, some a, true⟩ := by
  unfold getaddrinfo
  rw [h]

theorem gai_locked2_no_race (s : CacheState) (p : GetAddrInfoParams) (a : Nat) (r : Int)
    (t2 : Nat) (hnone : Assoc.find s.cache p = none) :
    (gai_locked2 s p a r t2).cache = Assoc.insert s.cache p ⟨t2, a, r⟩ ∧
    (gai_locked2 s p a r t2).params = Assoc.insert s.params a p ∧
    (gai_locked2 s p a r t2).refCounts = Assoc.insert s.refCounts a (bumped s.refCounts a) ∧
    (gai_locked2 s p a r t2).deferQueue = s.deferQueue := by
  unfold gai_locked2
  rw [hnone]
  obtain ⟨hc, hp, hd⟩ := inc_ref_count_fields s a
  exact ⟨by simp [hc], by simp [hp], by simp [inc_refCounts], by simp [hd]⟩

theorem gai_res_some_cache (s : CacheState) (p : GetAddrInfoParams) (t1 : Nat) (r : Int)
    (a t2 h : Nat) (hres : (getaddrinfo s p t1 r a t2).res = some h) :
    ∃ e : Response, Assoc.find (getaddrinfo s p t1 r a t2).state.cache p = some e ∧
      e.ai = h ∧ e.retval = (getaddrinfo s p t1 r a t2).ret := by
  rcases hg : gai_locked1 s p t1 with ⟨s1, out⟩
  cases out with
  | hit ai rv =>
    obtain ⟨v, hv, hai, hrv, ht, hs1⟩ := gai_locked1_hit s p t1 s1 ai rv hg
    simp only [getaddrinfo, hg] at hres ⊢
    injection hres with hh
    subst hs1
    refine ⟨v, ?_, hai.trans hh, hrv⟩
    rw [(inc_ref_count_fields s v.ai).1]
    exact hv
  | miss =>
    simp only [getaddrinfo, hg] at hres ⊢
    by_cases hr : r < 0
    · simp [hr] at hres
    · rw [if_neg hr] at hres ⊢
      injection hres with hh
      obtain ⟨hcm, -, -, -⟩ := gai_locked1_miss s p t1 s1 hg
      refine ⟨⟨t2, a, r⟩, ?_, hh, rfl⟩
      rw [(gai_locked2_no_race s1 p a r t2 hcm).1, Assoc.find_insert]
      simp

theorem gai_res_some_refcount (s : CacheState) (p : GetAddrInfoParams) (t1 : Nat) (r : Int)
    (a t2 h : Nat) (hres : (getaddrinfo s p t1 r a t2).res = some h) :
    ∃ c : RefCount, Assoc.find (getaddrinfo s p t1 r a t2).state.refCounts h = some c := by
  rcases hg : gai_locked1 s p t1 with ⟨s1, out⟩
  cases out with
  | hit ai rv =>
    obtain ⟨v, hv, hai, hrv, ht, hs1⟩ := gai_locked1_hit s p t1 s1 ai rv hg
    simp only [getaddrinfo, hg] at hres ⊢
    injection hres with hh
    subst hs1
    rw [inc_refCounts, Assoc.find_insert, if_pos (hai.trans hh).symm]
    exact ⟨bumped s.refCounts v.ai, rfl⟩
  | miss =>
    simp only [getaddrinfo, hg] at hres ⊢
    by_cases hr : r < 0
    · simp [hr] at hres
    · rw [if_neg hr] at hres ⊢
      injection hres with hh
      obtain ⟨hcm, -, -, -⟩ := gai_locked1_miss s p t1 s1 hg
      rw [(gai_locked2_no_race s1 p a r t2 hcm).2.2.1, Assoc.find_insert, if_pos hh.symm]
      exact ⟨bumped s1.refCounts a, rfl⟩

theorem ParamsCacheInv_congr (s s2 : CacheState) (hp : s2.params = s.params)
    (hc : s2.cache = s.cache) (h : ParamsCacheInv s) : ParamsCacheInv s2 := by
  unfold ParamsCacheInv at h ⊢
  rw [hp, hc]
  exact h

theorem gai_locked2_race (s : CacheState) (p : GetAddrInfoParams) (a : Nat) (r : Int)
    (t2 : Nat) (v : Response) (hsome : Assoc.find s.cache p = some v) :
    (gai_locked2 s p a r t2).cache = Assoc.insert s.cache p ⟨t2, a, r⟩ ∧
    (gai_locked2 s p a r t2).params = Assoc.insert (Assoc.erase s.params v.ai) a p ∧
    (gai_locked2 s p a r t2).deferQueue = s.deferQueue := by
  unfold gai_locked2
  simp only [hsome]
  obtain ⟨hc, hp, hd⟩ :=
    inc_ref_count_fields { s with params := Assoc.erase s.params v.ai } a
  exact ⟨by simp [hc], by simp [hp], by simp [hd]⟩

theorem defer_delete_ptr_cache_params (s : CacheState) (ptr : Nat) :
    (defer_delete_ptr s ptr).1.cache = s.cache ∧
    (defer_delete_ptr s ptr).1.params = s.params := by
  unfold defer_delete_ptr
  rcases hf : Assoc.find s.refCounts ptr with _ | c
  · simp [hf]
  · by_cases hd : c.deleted = true
    · simp [hf, hd]
    · simp [hf, hd]

theorem paramsCacheInv_gai_locked1 (s : CacheState) (p : GetAddrInfoParams) (t1 : Nat)
    (h : ParamsCacheInv s) : ParamsCacheInv (gai_locked1 s p t1).1 := by
  rcases hf : Assoc.find s.cache p with _ | v
  · have heq : gai_locked1 s p t1 = (s, .miss) := by
      unfold gai_locked1
      simp only [hf]
    rw [heq]
    exact h
  · by_cases ht : sub64 t1 v.timestamp < CACHE_LIFETIME_MS
    · rw [gai_locked1_fresh_hit s p t1 v hf ht]
      exact ParamsCacheInv_congr s _ (inc_ref_count_fields s v.ai).2.1
        (inc_ref_count_fields s v.ai).1 h
    · rw [gai_locked1_stale s p t1 v hf ht]
      constructor
      · intro x k hx
        have hx2 : Assoc.find (Assoc.erase s.params v.ai) x = some k := hx
        rw [Assoc.find_erase] at hx2
        by_cases hxv : x = v.ai
        · rw [if_pos hxv] at hx2
          exact absurd hx2 (by simp)
        · rw [if_neg hxv] at hx2
          obtain ⟨rr, hrr, hrai⟩ := h.1 x k hx2
          have hkp : k ≠ p := by
            intro hkp
            rw [hkp, hf] at hrr
            injection hrr with hrr
            subst hrr
            exact hxv hrai.symm
          refine ⟨rr, ?_, hrai⟩
          show Assoc.find (Assoc.erase s.cache p) k = some rr
          rw [Assoc.find_erase, if_neg hkp]
          exact hrr
      · intro k r2 hk
        have hk2 : Assoc.find (Assoc.erase s.cache p) k = some r2 := hk
        rw [Assoc.find_erase] at hk2
        by_cases hkp : k = p
        · rw [if_pos hkp] at hk2
          exact absurd hk2 (by simp)
        · rw [if_neg hkp] at hk2
          have h2 := h.2 k r2 hk2
          have hvai : Assoc.find s.params v.ai = some p := h.2 p v hf
          have hne : r2.ai ≠ v.ai := by
            intro he
            rw [he, hvai] at h2
            injection h2 with h2
            exact hkp h2.symm
          show Assoc.find (Assoc.erase s.params v.ai) r2.ai = some k
          rw [Assoc.find_erase, if_neg hne]
          exact h2

theorem paramsCacheInv_gai_locked2 (s : CacheState) (p : GetAddrInfoParams) (a : Nat)
    (r : Int) (t2 : Nat) (h : ParamsCacheInv s)
    (hfa : Assoc.find s.params a = none) : ParamsCacheInv (gai_locked2 s p a r t2) := by
  rcases hf : Assoc.find s.cache p with _ | v
  · obtain ⟨hgc, hgp, hgr, hgd⟩ := gai_locked2_no_race s p a r t2 hf
    constructor
    · intro x k hx
      rw [hgp, Assoc.find_insert] at hx
      by_cases hxa : x = a
      · rw [if_pos hxa] at hx
        injection hx with hx
        subst hx
        refine ⟨⟨t2, a, r⟩, ?_, hxa.symm⟩
        rw [hgc, Assoc.find_insert, if_pos rfl]
      · rw [if_neg hxa] at hx
        obtain ⟨rr, hrr, hrai⟩ := h.1 x k hx
        have hkp : k ≠ p := by
          intro hkp
          rw [hkp, hf] at hrr
          exact absurd hrr (by simp)
        refine ⟨rr, ?_, hrai⟩
        rw [hgc, Assoc.find_insert, if_neg hkp]
        exact hrr
    · intro k r2 hk
      rw [hgc, Assoc.find_insert] at hk
      by_cases hkp : k = p
      · rw [if_pos hkp] at hk
        injection hk with hk
        subst hk
        rw [hgp]
        show Assoc.find (Assoc.insert s.params a p) a = some k
        rw [Assoc.find_insert, if_pos rfl, hkp]
      · rw [if_neg hkp] at hk
        have h2 := h.2 k r2 hk
        have hra : r2.ai ≠ a := by
          intro he
          rw [he, hfa] at h2
          exact absurd h2 (by simp)
        rw [hgp, Assoc.find_insert, if_neg hra]
        exact h2
  · obtain ⟨hgc, hgp, hgd⟩ := gai_locked2_race s p a r t2 v hf
    have hvp : Assoc.find s.params v.ai = some p := h.2 p v hf
    constructor
    · intro x k hx
      rw [hgp, Assoc.find_insert] at hx
      by_cases hxa : x = a
      · rw [if_pos hxa] at hx
        injection hx with hx
        subst hx
        refine ⟨⟨t2, a, r⟩, ?_, hxa.symm⟩
        rw [hgc, Assoc.find_insert, if_pos rfl]
      · rw [if_neg hxa, Assoc.find_erase] at hx
        by_cases hxv : x = v.ai
        · rw [if_pos hxv] at hx
          exact absurd hx (by simp)
        · rw [if_neg hxv] at hx
          obtain ⟨rr, hrr, hrai⟩ := h.1 x k hx
          have hkp : k ≠ p := by
            intro hkp
            rw [hkp, hf] at hrr
            injection hrr with hrr
            subst hrr
            exact hxv hrai.symm
          refine ⟨rr, ?_, hrai⟩
          rw [hgc, Assoc.find_insert, if_neg hkp]
          exact hrr
    · intro k r2 hk
      rw [hgc, Assoc.find_insert] at hk
      by_cases hkp : k = p
      · rw [if_pos hkp] at hk
        injection hk with hk
        subst hk
        rw [hgp]
        show Assoc.find (Assoc.insert (Assoc.erase s.params v.ai) a p) a = some k
        rw [Assoc.find_insert, if_pos rfl, hkp]
      · rw [if_neg hkp] at hk
        have h2 := h.2 k r2 hk
        have hra : r2.ai ≠ a := by
          intro he
          rw [he, hfa] at h2
          exact absurd h2 (by simp)
        have hrv : r2.ai ≠ v.ai := by
          intro he
          rw [he, hvp] at h2
          injection h2 with h2
          exact hkp h2.symm
        rw [hgp, Assoc.find_insert, if_neg hra, Assoc.find_erase, if_neg hrv]
        exact h2

theorem paramsCacheInv_freeaddrinfo (s : CacheState) (ai : Nat) (h : ParamsCacheInv s) :
    ParamsCacheInv (freeaddrinfo s ai).state := by
  obtain ⟨hdc, hdp⟩ := defer_delete_ptr_cache_params s ai
  have h1 : ParamsCacheInv (defer_delete_ptr s ai).1 := ParamsCacheInv_congr s _ hdp hdc h
  unfold freeaddrinfo
  by_cases hlen : (defer_delete_ptr s ai).1.deferQueue.length > DEFER_CALL_COUNT
  · rw [if_pos hlen]
    rcases hq : (defer_delete_ptr s ai).1.deferQueue with _ | ⟨deferred, rest⟩
    · simp only [hq]
      exact h1
    · simp only [hq]
      by_cases hrefs :
          (get_ref_count { (defer_delete_ptr s ai).1 with deferQueue := rest } deferred).1.refs
            > 0
      · rw [if_pos hrefs]
        exact ParamsCacheInv_congr (defer_delete_ptr s ai).1 _ rfl rfl h1
      · rw [if_neg hrefs]
        rcases hpd : Assoc.find (defer_delete_ptr s ai).1.params deferred with _ | pk
        · simp only [hpd]
          refine ParamsCacheInv_congr (defer_delete_ptr s ai).1 _ ?_ rfl h1
          show Assoc.erase (defer_delete_ptr s ai).1.params deferred =
            (defer_delete_ptr s ai).1.params
          exact Assoc.erase_of_find_none _ _ hpd
        · simp only [hpd]
          obtain ⟨rd, hrd, hrdai⟩ := h1.1 deferred pk hpd
          constructor
          · intro x k hx
            have hx2 : Assoc.find (Assoc.erase (defer_delete_ptr s ai).1.params deferred) x =
              some k := hx
            rw [Assoc.find_erase] at hx2
            by_cases hxd : x = deferred
            · rw [if_pos hxd] at hx2
              exact absurd hx2 (by simp)
            · rw [if_neg hxd] at hx2
              obtain ⟨rr, hrr, hrai⟩ := h1.1 x k hx2
              have hkpk : k ≠ pk := by
                intro hkpk
                rw [hkpk, hrd] at hrr
                injection hrr with hrr
                subst hrr
                exact hxd (hrai ▸ hrdai.symm ▸ rfl)
              refine ⟨rr, ?_, hrai⟩
              show Assoc.find (Assoc.erase (defer_delete_ptr s ai).1.cache pk) k = some rr
              rw [Assoc.find_erase, if_neg hkpk]
              exact hrr
          · intro k r2 hk
            have hk2 : Assoc.find (Assoc.erase (defer_delete_ptr s ai).1.cache pk) k =
              some r2 := hk
            rw [Assoc.find_erase] at hk2
            by_cases hkpk : k = pk
            · rw [if_pos hkpk] at hk2
              exact absurd hk2 (by simp)
            · rw [if_neg hkpk] at hk2
              have h2 := h1.2 k r2 hk2
              have hne : r2.ai ≠ deferred := by
                intro he
                rw [he, hpd] at h2
                injection h2 with h2
                exact hkpk h2.symm
              show Assoc.find (Assoc.erase (defer_delete_ptr s ai).1.params deferred) r2.ai =
                some k
              rw [Assoc.find_erase, if_neg hne]
              exact h2
  · rw [if_neg hlen]
    exact h1

theorem bumped_preserves_deleted (rc : List (Nat × RefCount)) (a x : Nat)
    (h : (Assoc.find rc x).map RefCount.deleted = some true) :
    (Assoc.find (Assoc.insert rc a (bumped rc a)) x).map RefCount.deleted = some true := by
  rw [Assoc.find_insert]
  by_cases hxa : x = a
  · rw [if_pos hxa]
    rcases hfa : Assoc.find rc a with _ | c
    · rw [hxa, hfa] at h
      simp at h
    · rw [hxa, hfa] at h
      simp at h
      simp [bumped, hfa, h]
  · rw [if_neg hxa]
    exact h

theorem gai_locked2_refCounts_queue (s : CacheState) (p : GetAddrInfoParams) (a : Nat)
    (r : Int) (t2 : Nat) :
    (gai_locked2 s p a r t2).refCounts =
      Assoc.insert s.refCounts a (bumped s.refCounts a) ∧
    (gai_locked2 s p a r t2).deferQueue = s.deferQueue := by
  unfold gai_locked2
  rcases hf : Assoc.find s.cache p with _ | v <;> simp only [hf]
  · exact ⟨by simp [inc_refCounts], by simp [(inc_ref_count_fields s a).2.2]⟩
  · constructor
    · have := inc_refCounts { s with params := Assoc.erase s.params v.ai } a
      simp at this
      simp [this]
    · have := (inc_ref_count_fields { s with params := Assoc.erase s.params v.ai } a).2.2
      simp at this
      simp [this]

theorem queueInv_congr (s s2 : CacheState) (hq : s2.deferQueue = s.deferQueue)
    (hr : s2.refCounts = s.refCounts) (h : QueueInv s) : QueueInv s2 := by
  unfold QueueInv at h ⊢
  rw [hq, hr]
  exact h

theorem queueInv_defer (s : CacheState) (ai : Nat) (h : QueueInv s) :
    QueueInv (defer_delete_ptr s ai).1 := by
  unfold defer_delete_ptr
  rcases hf : Assoc.find s.refCounts ai with _ | c <;> simp only [hf]
  · exact h
  · by_cases hd : c.deleted = true
    · rw [if_pos hd]
      refine ⟨h.1, ?_⟩
      intro x hx
      show (Assoc.find (Assoc.insert s.refCounts ai ⟨c.refs - 1, c.deleted⟩) x).map
        RefCount.deleted = some true
      rw [Assoc.find_insert]
      by_cases hxa : x = ai
      · rw [if_pos hxa]
        simp [hd]
      · rw [if_neg hxa]
        exact h.2 x hx
    · rw [if_neg hd]
      have hnotin : ai ∉ s.deferQueue := by
        intro hmem
        have h2 := h.2 ai hmem
        rw [hf] at h2
        simp at h2
        exact hd h2
      constructor
      · show (s.deferQueue ++ [ai]).Nodup
        rw [List.nodup_append]
        refine ⟨h.1, List.nodup_singleton ai, ?_⟩
        intro x hx hx2
        simp at hx2
        subst hx2
        exact hnotin hx
      · intro x hx
        show (Assoc.find (Assoc.insert s.refCounts ai ⟨c.refs - 1, true⟩) x).map
          RefCount.deleted = some true
        rw [Assoc.find_insert]
        by_cases hxa : x = ai
        · rw [if_pos hxa]
          simp
        · rw [if_neg hxa]
          have hx2 : x ∈ s.deferQueue := by
            have := List.mem_append.mp hx
            rcases this with h3 | h3
            · exact h3
            · simp at h3
              exact absurd h3 hxa
          exact h.2 x hx2

theorem queueInv_getaddrinfo (s : CacheState) (p : GetAddrInfoParams) (t1 : Nat)
    (r : Int) (a t2 : Nat) (h : QueueInv s) :
    QueueInv (getaddrinfo s p t1 r a t2).state := by
  rcases hg : gai_locked1 s p t1 with ⟨s1, out⟩
  have h1 : QueueInv s1 := by
    cases out with
    | hit ai rv =>
      obtain ⟨v, hv, hai, hrv, ht, hs1⟩ := gai_locked1_hit s p t1 s1 ai rv hg
      subst hs1
      refine ⟨?_, ?_⟩
      · rw [(inc_ref_count_fields s v.ai).2.2]
        exact h.1
      · intro x hx
        rw [(inc_ref_count_fields s v.ai).2.2] at hx
        rw [inc_refCounts]
        exact bumped_preserves_deleted s.refCounts v.ai x (h.2 x hx)
    | miss =>
      obtain ⟨-, hrc, hdq, -⟩ := gai_locked1_miss s p t1 s1 hg
      exact queueInv_congr s s1 hdq hrc h
  cases out with
  | hit ai rv =>
    rw [getaddrinfo_of_hit s p t1 r a t2 s1 ai rv hg]
    exact h1
  | miss =>
    rw [getaddrinfo_of_miss s p t1 r a t2 s1 hg]
    by_cases hr : r < 0
    · rw [if_pos hr]
      exact h1
    · rw [if_neg hr]
      show QueueInv (gai_locked2 s1 p a r t2)
      obtain ⟨hrc, hdq⟩ := gai_locked2_refCounts_queue s1 p a r t2
      refine ⟨?_, ?_⟩
      · rw [hdq]
        exact h1.1
      · intro x hx
        rw [hdq] at hx
        rw [hrc]
        exact bumped_preserves_deleted s1.refCounts a x (h1.2 x hx)

theorem queueInv_freeaddrinfo (s : CacheState) (ai : Nat) (h : QueueInv s) :
    QueueInv (freeaddrinfo s ai).state := by
  have h1 := queueInv_defer s ai h
  unfold freeaddrinfo
  by_cases hlen : (defer_delete_ptr s ai).1.deferQueue.length > DEFER_CALL_COUNT
  · rw [if_pos hlen]
    rcases hq : (defer_delete_ptr s ai).1.deferQueue with _ | ⟨deferred, rest⟩
    · simp only [hq]
      exact h1
    · simp only [hq]
      have hnd := h1.1
      rw [hq, List.nodup_cons] at hnd
      have hmem : ∀ x ∈ rest,
          (Assoc.find (defer_delete_ptr s ai).1.refCounts x).map RefCount.deleted =
            some true := by
        intro x hx
        refine h1.2 x ?_
        rw [hq]
        exact List.mem_cons_of_mem _ hx
      by_cases hrefs :
          (get_ref_count { (defer_delete_ptr s ai).1 with deferQueue := rest } deferred).1.refs
            > 0
      · rw [if_pos hrefs]
        exact ⟨hnd.2, fun x hx => hmem x hx⟩
      · rw [if_neg hrefs]
        rcases hpd : Assoc.find (defer_delete_ptr s ai).1.params deferred with _ | pk <;>
        · simp only [hpd]
          refine ⟨hnd.2, ?_⟩
          intro x hx
          have hxne : x ≠ deferred := by
            intro hxd
            rw [hxd] at hx
            exact hnd.1 hx
          show (Assoc.find (Assoc.erase (defer_delete_ptr s ai).1.refCounts deferred) x).map
            RefCount.deleted = some true
          rw [Assoc.find_erase, if_neg hxne]
          exact hmem x hx
  · rw [if_neg hlen]
    exact h1

/-! ### The borrow-accounting scenario -/

theorem Assoc.find_nil {α β : Type} [DecidableEq α] (a : α) :
    Assoc.find ([] : List (α × β)) a = none := rfl

theorem Assoc.find_cons {α β : Type} [DecidableEq α] (k : α) (v : β) (t : List (α × β))
    (a : α) : Assoc.find ((k, v) :: t) a = if k = a then some v else Assoc.find t a := rfl

theorem Assoc.erase_nil {α β : Type} [DecidableEq α] (a : α) :
    Assoc.erase ([] : List (α × β)) a = [] := rfl

theorem Assoc.erase_cons {α β : Type} [DecidableEq α] (k : α) (v : β) (t : List (α × β))
    (a : α) : Assoc.erase ((k, v) :: t) a =
      if k = a then Assoc.erase t a else (k, v) :: Assoc.erase t a := rfl

theorem run_nil (s : CacheState) : run s [] = (s, []) := rfl

theorem run_cons (s : CacheState) (op : Op) (l : List Op) :
    run s (op :: l) =
      ((run (step s op).1 l).1, (step s op).2.toList ++ (run (step s op).1 l).2) := rfl

theorem rcC_find_high (h i x : Nat) (hx : h + i < x) : Assoc.find (rcC h i) x = none := by
  induction i with
  | zero =>
    rw [show rcC h 0 = [(h, ⟨0, true⟩)] from rfl, Assoc.find_cons, if_neg (by omega)]
    rfl
  | succ m ih =>
    rw [show rcC h (m + 1) = (h + (m + 1), ⟨0, true⟩) :: rcC h m from rfl, Assoc.find_cons,
      if_neg (by omega)]
    exact ih (by omega)

theorem rcC_find_h (h i : Nat) : Assoc.find (rcC h i) h = some ⟨0, true⟩ := by
  induction i with
  | zero =>
    rw [show rcC h 0 = [(h, ⟨0, true⟩)] from rfl, Assoc.find_cons, if_pos rfl]
  | succ m ih =>
    rw [show rcC h (m + 1) = (h + (m + 1), ⟨0, true⟩) :: rcC h m from rfl, Assoc.find_cons,
      if_neg (by omega)]
    exact ih

theorem qC_length (h i : Nat) : (qC h i).length = i := by
  induction i with
  | zero => rfl
  | succ m ih =>
    rw [show qC h (m + 1) = qC h m ++ [h + (m + 1)] from rfl]
    simp [ih]

theorem step_resolve_fresh (h : Nat) :
    step initState (Op.resolve pKey 0 0 h 0) = (stateA h 1, none) := rfl

theorem step_hit (h n : Nat) :
    step (stateA h n) (Op.resolve pKey 0 0 0 0) = (stateA h (n + 1), none) := by
  have hv : Assoc.find (stateA h n).cache pKey = some ⟨0, h, 0⟩ := rfl
  have ht : sub64 0 (Response.timestamp ⟨0, h, 0⟩) < CACHE_LIFETIME_MS := by
    show sub64 0 0 < CACHE_LIFETIME_MS
    decide
  have hloc := gai_locked1_fresh_hit (stateA h n) pKey 0 ⟨0, h, 0⟩ hv ht
  have hrc : Assoc.find (stateA h n).refCounts h = some ⟨(n : Int), false⟩ := by
    show Assoc.find [(h, (⟨(n : Int), false⟩ : RefCount))] h =
      some (⟨(n : Int), false⟩ : RefCount)
    rw [Assoc.find_cons, if_pos rfl]
  have hinc : (inc_ref_count (stateA h n) h).1 = stateA h (n + 1) := by
    unfold inc_ref_count
    simp only [hrc]
    show ({ stateA h n with
      refCounts := Assoc.insert (stateA h n).refCounts h ⟨(n : Int) + 1, false⟩ } :
        CacheState) = stateA h (n + 1)
    unfold Assoc.insert
    rw [show Assoc.erase (stateA h n).refCounts h = [] by
      show Assoc.erase [(h, (⟨(n : Int), false⟩ : RefCount))] h = []
      rw [Assoc.erase_cons, if_pos rfl, Assoc.erase_nil]]
    simp [stateA]
  show ((getaddrinfo (stateA h n) pKey 0 0 0 0).state, (none : Option Nat)) =
    (stateA h (n + 1), none)
  rw [getaddrinfo_of_hit (stateA h n) pKey 0 0 0 0 _ _ _ hloc]
  show ((inc_ref_count (stateA h n) (Response.ai ⟨0, h, 0⟩)).1, (none : Option Nat)) = _
  rw [show Response.ai ⟨0, h, 0⟩ = h from rfl, hinc]

theorem runA (h : Nat) : ∀ (k n : Nat),
    run (stateA h n) (List.replicate k (Op.resolve pKey 0 0 0 0)) =
      (stateA h (n + k), []) := by
  intro k
  induction k with
  | zero =>
    intro n
    rw [List.replicate_zero, run_nil]
    rfl
  | succ m ih =>
    intro n
    rw [List.replicate_succ, run_cons, step_hit h n]
    show ((run (stateA h (n + 1)) (List.replicate m (Op.resolve pKey 0 0 0 0))).1,
      (none : Option Nat).toList ++
        (run (stateA h (n + 1)) (List.replicate m (Op.resolve pKey 0 0 0 0))).2) = _
    rw [ih (n + 1)]
    have harith : n + 1 + m = n + (m + 1) := by omega
    rw [harith]
    rfl

theorem step_free_first (h n : Nat) :
    step (stateA h n) (Op.free h) = (stateB h ((n : Int) - 1), none) := by
  have hrc : Assoc.find (stateA h n).refCounts h = some ⟨(n : Int), false⟩ := by
    show Assoc.find [(h, (⟨(n : Int), false⟩ : RefCount))] h =
      some (⟨(n : Int), false⟩ : RefCount)
    rw [Assoc.find_cons, if_pos rfl]
  have hdef : defer_delete_ptr (stateA h n) h = (stateB h ((n : Int) - 1), []) := by
    unfold defer_delete_ptr
    simp only [hrc]
    rw [if_neg (by simp)]
    unfold Assoc.insert
    rw [show Assoc.erase (stateA h n).refCounts h = [] by
      show Assoc.erase [(h, (⟨(n : Int), false⟩ : RefCount))] h = []
      rw [Assoc.erase_cons, if_pos rfl, Assoc.erase_nil]]
    rfl
  show ((freeaddrinfo (stateA h n) h).state, (freeaddrinfo (stateA h n) h).freed) =
    (stateB h ((n : Int) - 1), none)
  unfold freeaddrinfo
  rw [hdef]
  rfl

theorem step_free_again (h : Nat) (r : Int) :
    step (stateB h r) (Op.free h) = (stateB h (r - 1), none) := by
  have hrc : Assoc.find (stateB h r).refCounts h = some ⟨r, true⟩ := by
    show Assoc.find [(h, (⟨r, true⟩ : RefCount))] h = some (⟨r, true⟩ : RefCount)
    rw [Assoc.find_cons, if_pos rfl]
  have hdef : defer_delete_ptr (stateB h r) h = (stateB h (r - 1), []) := by
    unfold defer_delete_ptr
    simp only [hrc]
    rw [if_pos trivial]
    unfold Assoc.insert
    rw [show Assoc.erase (stateB h r).refCounts h = [] by
      show Assoc.erase [(h, (⟨r, true⟩ : RefCount))] h = []
      rw [Assoc.erase_cons, if_pos rfl, Assoc.erase_nil]]
    rfl
  show ((freeaddrinfo (stateB h r) h).state, (freeaddrinfo (stateB h r) h).freed) =
    (stateB h (r - 1), none)
  unfold freeaddrinfo
  rw [hdef]
  rfl

theorem runB (h : Nat) : ∀ (k : Nat) (r : Int),
    run (stateB h r) (List.replicate k (Op.free h)) = (stateB h (r - k), []) := by
  intro k
  induction k with
  | zero =>
    intro r
    rw [List.replicate_zero, run_nil]
    norm_num
  | succ m ih =>
    intro r
    rw [List.replicate_succ, run_cons, step_free_again h r]
    show ((run (stateB h (r - 1)) (List.replicate m (Op.free h))).1,
      (none : Option Nat).toList ++
        (run (stateB h (r - 1)) (List.replicate m (Op.free h))).2) = _
    rw [ih (r - 1)]
    have harith : r - 1 - (m : Int) = r - ((m + 1 : Nat) : Int) := by
      push_cast
      ring
    rw [harith]
    rfl

theorem CacheState.ext4 (s s2 : CacheState) (hc : s.cache = s2.cache)
    (hp : s.params = s2.params) (hr : s.refCounts = s2.refCounts)
    (hq : s.deferQueue = s2.deferQueue) : s = s2 := by
  cases s
  cases s2
  simp_all

theorem freeaddrinfo_evicts (s : CacheState) (ai h2 : Nat) (rest : List Nat) (c : RefCount)
    (hq : (defer_delete_ptr s ai).1.deferQueue = h2 :: rest)
    (hlen : DEFER_CALL_COUNT < (defer_delete_ptr s ai).1.deferQueue.length)
    (hc : Assoc.find (defer_delete_ptr s ai).1.refCounts h2 = some c)
    (hle : ¬ c.refs > 0)
    (pk : GetAddrInfoParams)
    (hpk : Assoc.find (defer_delete_ptr s ai).1.params h2 = some pk) :
    freeaddrinfo s ai =
      ⟨⟨Assoc.erase (defer_delete_ptr s ai).1.cache pk,
        Assoc.erase (defer_delete_ptr s ai).1.params h2,
        Assoc.erase (defer_delete_ptr s ai).1.refCounts h2, rest⟩,
       some h2, (defer_delete_ptr s ai).2 ++ []⟩ := by
  unfold freeaddrinfo get_ref_count
  simp only [hq] at hlen ⊢
  rw [if_pos hlen]
  simp only [hc]
  rw [if_neg hle]
  simp only [hpk]

theorem step_fill_resolve_base (h : Nat) :
    step (stateB h 0) (Op.resolve qKey (1000 * 1) 0 (h + 1) (1000 * 1)) =
      (stateCr h 1, none) := by
  have hloc : gai_locked1 (stateB h 0) qKey (1000 * 1) = (stateB h 0, .miss) := rfl
  have hfr : Assoc.find (stateB h 0).refCounts (h + 1) = none := by
    show Assoc.find [(h, (⟨0, true⟩ : RefCount))] (h + 1) = none
    rw [Assoc.find_cons, if_neg (by omega), Assoc.find_nil]
  obtain ⟨hgc, hgp, hgr, hgd⟩ :=
    gai_locked2_no_race (stateB h 0) qKey (h + 1) 0 (1000 * 1) rfl
  have hg2 : gai_locked2 (stateB h 0) qKey (h + 1) 0 (1000 * 1) = stateCr h 1 := by
    apply CacheState.ext4
    · rw [hgc]
      rfl
    · rw [hgp]
      show Assoc.insert [(h, pKey)] (h + 1) qKey = (stateCr h 1).params
      unfold Assoc.insert
      rw [show Assoc.erase ([(h, pKey)] : List (Nat × GetAddrInfoParams)) (h + 1) =
          [(h, pKey)] by
        rw [Assoc.erase_cons, if_neg (by omega), Assoc.erase_nil]]
      rfl
    · rw [hgr]
      show Assoc.insert [(h, (⟨0, true⟩ : RefCount))] (h + 1)
        (bumped [(h, (⟨0, true⟩ : RefCount))] (h + 1)) = (stateCr h 1).refCounts
      unfold bumped
      simp only [show Assoc.find [(h, (⟨0, true⟩ : RefCount))] (h + 1) = none by
        rw [Assoc.find_cons, if_neg (by omega), Assoc.find_nil]]
      unfold Assoc.insert
      rw [show Assoc.erase ([(h, (⟨0, true⟩ : RefCount))] : List (Nat × RefCount)) (h + 1) =
          [(h, (⟨0, true⟩ : RefCount))] by
        rw [Assoc.erase_cons, if_neg (by omega), Assoc.erase_nil]]
      rfl
    · rw [hgd]
      rfl
  show ((getaddrinfo (stateB h 0) qKey (1000 * 1) 0 (h + 1) (1000 * 1)).state,
    (none : Option Nat)) = (stateCr h 1, none)
  rw [getaddrinfo_of_miss _ _ _ 0 (h + 1) _ _ hloc, if_neg (by omega : ¬ (0 : Int) < 0)]
  show (gai_locked2 (stateB h 0) qKey (h + 1) 0 (1000 * 1), (none : Option Nat)) = _
  rw [hg2]

theorem step_fill_resolve (h i : Nat) (hi : 1 ≤ i) (hb : i ≤ 999) :
    step (stateC h i) (Op.resolve qKey (1000 * (i + 1)) 0 (h + (i + 1)) (1000 * (i + 1))) =
      (stateCr h (i + 1), none) := by
  have hv : Assoc.find (stateC h i).cache qKey = some ⟨1000 * i, h + i, 0⟩ := rfl
  have hsub : ¬ sub64 (1000 * (i + 1)) (Response.timestamp ⟨1000 * i, h + i, 0⟩) <
      CACHE_LIFETIME_MS := by
    show ¬ sub64 (1000 * (i + 1)) (1000 * i) < CACHE_LIFETIME_MS
    unfold sub64 CACHE_LIFETIME_MS
    omega
  have hloc := gai_locked1_stale (stateC h i) qKey (1000 * (i + 1)) ⟨1000 * i, h + i, 0⟩ hv hsub
  have hloc2 : gai_locked1 (stateC h i) qKey (1000 * (i + 1)) =
      ((⟨[(pKey, ⟨0, h, 0⟩)], [(h, pKey)], rcC h i, h :: qC h i⟩ : CacheState), .miss) := by
    rw [hloc]
    have hep : Assoc.erase (stateC h i).params (h + i) = [(h, pKey)] := by
      show Assoc.erase [(h + i, qKey), (h, pKey)] (h + i) = [(h, pKey)]
      rw [Assoc.erase_cons, if_pos rfl, Assoc.erase_cons, if_neg (by omega), Assoc.erase_nil]
    show ((⟨Assoc.erase (stateC h i).cache qKey, Assoc.erase (stateC h i).params (h + i),
      rcC h i, h :: qC h i⟩ : CacheState), LookupOutcome.miss) = _
    rw [hep]
    rfl
  have hfr : Assoc.find (rcC h i) (h + (i + 1)) = none :=
    rcC_find_high h i (h + (i + 1)) (by omega)
  obtain ⟨hgc, hgp, hgr, hgd⟩ := gai_locked2_no_race
    (⟨[(pKey, ⟨0, h, 0⟩)], [(h, pKey)], rcC h i, h :: qC h i⟩ : CacheState)
    qKey (h + (i + 1)) 0 (1000 * (i + 1)) rfl
  have hg2 : gai_locked2
      (⟨[(pKey, ⟨0, h, 0⟩)], [(h, pKey)], rcC h i, h :: qC h i⟩ : CacheState)
      qKey (h + (i + 1)) 0 (1000 * (i + 1)) = stateCr h (i + 1) := by
    apply CacheState.ext4
    · rw [hgc]
      rfl
    · rw [hgp]
      show Assoc.insert [(h, pKey)] (h + (i + 1)) qKey = (stateCr h (i + 1)).params
      unfold Assoc.insert
      rw [show Assoc.erase ([(h, pKey)] : List (Nat × GetAddrInfoParams)) (h + (i + 1)) =
          [(h, pKey)] by
        rw [Assoc.erase_cons, if_neg (by omega), Assoc.erase_nil]]
      rfl
    · rw [hgr]
      show Assoc.insert (rcC h i) (h + (i + 1)) (bumped (rcC h i) (h + (i + 1))) =
        (stateCr h (i + 1)).refCounts
      unfold bumped
      simp only [hfr]
      unfold Assoc.insert
      rw [Assoc.erase_of_find_none _ _ hfr]
      rfl
    · rw [hgd]
      rfl
  show ((getaddrinfo (stateC h i) qKey (1000 * (i + 1)) 0 (h + (i + 1))
    (1000 * (i + 1))).state, (none : Option Nat)) = (stateCr h (i + 1), none)
  rw [getaddrinfo_of_miss _ _ _ 0 (h + (i + 1)) _ _ hloc2,
    if_neg (by omega : ¬ (0 : Int) < 0)]
  show (gai_locked2 (⟨[(pKey, ⟨0, h, 0⟩)], [(h, pKey)], rcC h i, h :: qC h i⟩ : CacheState)
    qKey (h + (i + 1)) 0 (1000 * (i + 1)), (none : Option Nat)) = _
  rw [hg2]

theorem step_fill_free (h i : Nat) (hi : 1 ≤ i) (hb : i ≤ 999) :
    step (stateCr h i) (Op.free (h + i)) = (stateC h i, none) := by
  have hrc : Assoc.find (stateCr h i).refCounts (h + i) = some ⟨1, false⟩ := by
    show Assoc.find ((h + i, (⟨1, false⟩ : RefCount)) :: rcC h (i - 1)) (h + i) =
      some (⟨1, false⟩ : RefCount)
    rw [Assoc.find_cons, if_pos rfl]
  have hfr : Assoc.find (rcC h (i - 1)) (h + i) = none :=
    rcC_find_high h (i - 1) (h + i) (by omega)
  have hdef : defer_delete_ptr (stateCr h i) (h + i) = (stateC h i, []) := by
    unfold defer_delete_ptr
    simp only [hrc]
    rw [if_neg (by simp)]
    refine congrArg (fun st => (st, ([] : List String))) ?_
    apply CacheState.ext4
    · rfl
    · rfl
    · show Assoc.insert ((h + i, (⟨1, false⟩ : RefCount)) :: rcC h (i - 1)) (h + i)
        ⟨(1 : Int) - 1, true⟩ = (stateC h i).refCounts
      unfold Assoc.insert
      rw [Assoc.erase_cons, if_pos rfl, Assoc.erase_of_find_none _ _ hfr]
      show ((h + i, (⟨0, true⟩ : RefCount)) :: rcC h (i - 1)) = rcC h i
      obtain ⟨m, rfl⟩ : ∃ m, i = m + 1 := ⟨i - 1, by omega⟩
      rfl
    · show (h :: qC h (i - 1)) ++ [h + i] = (stateC h i).deferQueue
      rw [List.cons_append]
      show h :: (qC h (i - 1) ++ [h + i]) = h :: qC h i
      obtain ⟨m, rfl⟩ : ∃ m, i = m + 1 := ⟨i - 1, by omega⟩
      rfl
  have hlen : ¬ (stateC h i).deferQueue.length > DEFER_CALL_COUNT := by
    show ¬ (h :: qC h i).length > DEFER_CALL_COUNT
    rw [List.length_cons, qC_length]
    show ¬ i + 1 > 1000
    omega
  show ((freeaddrinfo (stateCr h i) (h + i)).state,
    (freeaddrinfo (stateCr h i) (h + i)).freed) = (stateC h i, none)
  unfold freeaddrinfo
  rw [hdef]
  rw [if_neg hlen]

theorem step_fill_free_final (h : Nat) :
    step (stateCr h 1000) (Op.free (h + 1000)) =
      ((⟨[(qKey, ⟨1000 * 1000, h + 1000, 0⟩)], [(h + 1000, qKey)],
        Assoc.erase (rcC h 1000) h, qC h 1000⟩ : CacheState), some h) := by
  have hrc : Assoc.find (stateCr h 1000).refCounts (h + 1000) = some ⟨1, false⟩ := by
    show Assoc.find ((h + 1000, (⟨1, false⟩ : RefCount)) :: rcC h 999) (h + 1000) =
      some (⟨1, false⟩ : RefCount)
    rw [Assoc.find_cons, if_pos rfl]
  have hfr : Assoc.find (rcC h 999) (h + 1000) = none :=
    rcC_find_high h 999 (h + 1000) (by omega)
  have hdef : defer_delete_ptr (stateCr h 1000) (h + 1000) =
      ((⟨[(qKey, ⟨1000 * 1000, h + 1000, 0⟩), (pKey, ⟨0, h, 0⟩)],
        [(h + 1000, qKey), (h, pKey)], rcC h 1000, h :: qC h 1000⟩ : CacheState), []) := by
    unfold defer_delete_ptr
    simp only [hrc]
    rw [if_neg (by simp)]
    refine congrArg (fun st => (st, ([] : List String))) ?_
    apply CacheState.ext4
    · rfl
    · rfl
    · show Assoc.insert ((h + 1000, (⟨1, false⟩ : RefCount)) :: rcC h 999) (h + 1000)
        ⟨(1 : Int) - 1, true⟩ = rcC h 1000
      unfold Assoc.insert
      rw [Assoc.erase_cons, if_pos rfl, Assoc.erase_of_find_none _ _ hfr]
      rfl
    · show (h :: qC h 999) ++ [h + 1000] = h :: qC h 1000
      rw [List.cons_append]
      rfl
  have hq2 : (defer_delete_ptr (stateCr h 1000) (h + 1000)).1.deferQueue =
      h :: qC h 1000 := by
    rw [hdef]
  have hlen2 : DEFER_CALL_COUNT <
      (defer_delete_ptr (stateCr h 1000) (h + 1000)).1.deferQueue.length := by
    rw [hq2, List.length_cons, qC_length]
    show (1000 : Nat) < 1000 + 1
    omega
  have hc2 : Assoc.find (defer_delete_ptr (stateCr h 1000) (h + 1000)).1.refCounts h =
      some ⟨0, true⟩ := by
    rw [hdef]
    exact rcC_find_h h 1000
  have hpk2 : Assoc.find (defer_delete_ptr (stateCr h 1000) (h + 1000)).1.params h =
      some pKey := by
    rw [hdef]
    show Assoc.find [(h + 1000, qKey), (h, pKey)] h = some pKey
    rw [Assoc.find_cons, if_neg (by omega), Assoc.find_cons, if_pos rfl]
  have hep : Assoc.erase ([(h + 1000, qKey), (h, pKey)] : List (Nat × GetAddrInfoParams)) h =
      [(h + 1000, qKey)] := by
    rw [Assoc.erase_cons, if_neg (by omega), Assoc.erase_cons, if_pos rfl, Assoc.erase_nil]
  show ((freeaddrinfo (stateCr h 1000) (h + 1000)).state,
    (freeaddrinfo (stateCr h 1000) (h + 1000)).freed) = _
  rw [freeaddrinfo_evicts (stateCr h 1000) (h + 1000) h (qC h 1000) ⟨0, true⟩ hq2 hlen2 hc2
    (by decide) pKey hpk2]
  simp only [hdef, hep]
  rfl

theorem runC (h : Nat) : ∀ i, 1 ≤ i → i ≤ 999 →
    run (stateB h 0) (fillOps h i) = (stateC h i, []) := by
  intro i
  induction i with
  | zero =>
    intro h1 h2
    omega
  | succ m ih =>
    intro _ hb
    rw [show fillOps h (m + 1) = fillOps h m ++ fillPair h (m + 1) from rfl, run_append]
    by_cases hm : 1 ≤ m
    · rw [ih hm (by omega)]
      simp only [fillPair, run_cons, run_nil,
        step_fill_resolve h m hm (by omega),
        step_fill_free h (m + 1) (by omega) (by omega)]
      rfl
    · have hm0 : m = 0 := by omega
      subst hm0
      rw [show fillOps h 0 = ([] : List Op) from rfl, run_nil]
      simp only [fillPair, run_cons, run_nil, step_fill_resolve_base h,
        step_fill_free h 1 (by omega) (by omega)]
      rfl

theorem run_resolve_release (N h : Nat) (hN : 1 ≤ N) :
    run initState (resolveOps N h ++ releaseOps N h) = (stateB h 0, []) := by
  obtain ⟨m, rfl⟩ : ∃ m, N = m + 1 := ⟨N - 1, by omega⟩
  rw [run_append]
  have h1 : run initState (resolveOps (m + 1) h) = (stateA h (m + 1), []) := by
    rw [show resolveOps (m + 1) h =
      Op.resolve pKey 0 0 h 0 :: List.replicate m (Op.resolve pKey 0 0 0 0) from rfl]
    rw [run_cons, step_resolve_fresh h]
    show ((run (stateA h 1) (List.replicate m (Op.resolve pKey 0 0 0 0))).1,
      (none : Option Nat).toList ++
        (run (stateA h 1) (List.replicate m (Op.resolve pKey 0 0 0 0))).2) = _
    rw [runA h m 1]
    have harith : 1 + m = m + 1 := by omega
    rw [harith]
    rfl
  rw [h1]
  have h2 : run (stateA h (m + 1)) (releaseOps (m + 1) h) = (stateB h 0, []) := by
    rw [show releaseOps (m + 1) h = Op.free h :: List.replicate m (Op.free h) from rfl]
    rw [run_cons, step_free_first h (m + 1)]
    show ((run (stateB h (((m + 1 : Nat) : Int) - 1)) (List.replicate m (Op.free h))).1,
      (none : Option Nat).toList ++
        (run (stateB h (((m + 1 : Nat) : Int) - 1)) (List.replicate m (Op.free h))).2) = _
    rw [runB h m (((m + 1 : Nat) : Int) - 1)]
    have harith : ((m + 1 : Nat) : Int) - 1 - (m : Int) = 0 := by
      push_cast
      ring
    rw [harith]
    rfl
  show ((run (stateA h (m + 1)) (releaseOps (m + 1) h)).1,
    ([] : List Nat) ++ (run (stateA h (m + 1)) (releaseOps (m + 1) h)).2) = _
  rw [h2]
  rfl

/-! ### Claim theorems -/

/-- Claim C1: if a resolve call returned handle `h` and a second resolve
call with the same canonical key runs while the cached entry is within
the TTL window (`now - createdAt < ttl` in wrapping `u64` arithmetic),
the second call returns the identical handle and status code, increments
the handle's borrow count, and does not invoke the real resolver. -/
theorem c1_cache_hit_same_handle_no_real_call
    (s : CacheState) (p : GetAddrInfoParams) (t1 : Nat) (r1 : Int) (a1 t2 t3 : Nat)
    (r2 : Int) (a2 t4 h : Nat) (e : Response)
    (hres : (getaddrinfo s p t1 r1 a1 t2).res = some h)
    (he : Assoc.find (getaddrinfo s p t1 r1 a1 t2).state.cache p = some e)
    (hfr : sub64 t3 e.timestamp < CACHE_LIFETIME_MS) :
    (getaddrinfo (getaddrinfo s p t1 r1 a1 t2).state p t3 r2 a2 t4).res = some h ∧
    (getaddrinfo (getaddrinfo s p t1 r1 a1 t2).state p t3 r2 a2 t4).ret =
      (getaddrinfo s p t1 r1 a1 t2).ret ∧
    (getaddrinfo (getaddrinfo s p t1 r1 a1 t2).state p t3 r2 a2 t4).realCalled = false ∧
    ∃ c : RefCount,
      Assoc.find (getaddrinfo s p t1 r1 a1 t2).state.refCounts h = some c ∧
      Assoc.find (getaddrinfo (getaddrinfo s p t1 r1 a1 t2).state p t3 r2 a2 t4).state.refCounts
        h = some ⟨c.refs + 1, c.deleted⟩ := by
  obtain ⟨e2, he2, hai, hret⟩ := gai_res_some_cache s p t1 r1 a1 t2 h hres
  rw [he] at he2
  injection he2 with he2
  subst he2
  obtain ⟨c, hc⟩ := gai_res_some_refcount s p t1 r1 a1 t2 h hres
  rw [getaddrinfo_of_hit (getaddrinfo s p t1 r1 a1 t2).state p t3 r2 a2 t4 _ _ _
      (gai_locked1_fresh_hit (getaddrinfo s p t1 r1 a1 t2).state p t3 e he hfr)]
  refine ⟨by simp [hai], by simp [hret], rfl, c, hc, ?_⟩
  simpa [hai] using find_inc_self_of_some (getaddrinfo s p t1 r1 a1 t2).state h c hc

/-- Witness for C1 at a concrete trace: fresh resolve of `pKey` returning
handle 5, then a second resolve 500 ms later. -/
theorem c1_cache_hit_same_handle_no_real_call_witness :
    (getaddrinfo (getaddrinfo initState pKey 0 0 5 0).state pKey 500 0 9 500).res = some 5 ∧
    (getaddrinfo (getaddrinfo initState pKey 0 0 5 0).state pKey 500 0 9 500).ret =
      (getaddrinfo initState pKey 0 0 5 0).ret ∧
    (getaddrinfo (getaddrinfo initState pKey 0 0 5 0).state pKey 500 0 9 500).realCalled =
      false ∧
    ∃ c : RefCount,
      Assoc.find (getaddrinfo initState pKey 0 0 5 0).state.refCounts 5 = some c ∧
      Assoc.find (getaddrinfo (getaddrinfo initState pKey 0 0 5 0).state
        pKey 500 0 9 500).state.refCounts 5 = some ⟨c.refs + 1, c.deleted⟩ :=
  c1_cache_hit_same_handle_no_real_call initState pKey 0 0 5 0 500 0 9 500 5 ⟨0, 5, 0⟩
    (by decide) (by decide) (by decide)

/-- Claim C3: when the deferred-reclamation queue is over capacity and
the dequeued oldest handle still has a positive borrow count, the
release path frees nothing, re-enqueues nothing, and leaves all other
bookkeeping (reference counts, reverse index, cache) exactly as it was
after the decrement — the handle is simply dropped from the queue. -/
theorem c3_busy_evicted_handle_dropped (s : CacheState) (ai h : Nat) (rest : List Nat)
    (c : RefCount)
    (hq : (defer_delete_ptr s ai).1.deferQueue = h :: rest)
    (hlen : DEFER_CALL_COUNT < (defer_delete_ptr s ai).1.deferQueue.length)
    (hc : Assoc.find (defer_delete_ptr s ai).1.refCounts h = some c)
    (hpos : 0 < c.refs) :
    (freeaddrinfo s ai).state = { (defer_delete_ptr s ai).1 with deferQueue := rest } ∧
    (freeaddrinfo s ai).freed = none := by
  unfold freeaddrinfo get_ref_count
  simp only [hq] at hlen ⊢
  rw [if_pos hlen]
  simp only [hc]
  rw [if_pos hpos]
  exact ⟨rfl, rfl⟩

/-- Witness for C3: a state whose queue holds 1001 copies of handle 7
with a positive borrow count; the release pops and drops 7 unfreed. -/
theorem c3_busy_evicted_handle_dropped_witness :
    (freeaddrinfo ⟨[], [], [(7, ⟨5, true⟩)], List.replicate 1001 7⟩ 7).state =
      { (defer_delete_ptr ⟨[], [], [(7, ⟨5, true⟩)], List.replicate 1001 7⟩ 7).1 with
        deferQueue := List.replicate 1000 7 } ∧
    (freeaddrinfo ⟨[], [], [(7, ⟨5, true⟩)], List.replicate 1001 7⟩ 7).freed = none :=
  c3_busy_evicted_handle_dropped ⟨[], [], [(7, ⟨5, true⟩)], List.replicate 1001 7⟩ 7 7
    (List.replicate 1000 7) ⟨4, true⟩ (by decide) (by decide) (by decide) (by decide)

/-- Claim C5: a resolve call that finds a cached entry at least TTL old
removes the stale handle's reverse-index entry and the cache entry,
invokes the real resolver again, and does not return the expired handle
(assuming the real resolver returns a fresh pointer distinct from the
stale one). -/
theorem c5_expired_entry_evicted_and_refreshed (s : CacheState) (p : GetAddrInfoParams)
    (t1 : Nat) (realRet : Int) (realAi t2 : Nat) (v : Response)
    (hv : Assoc.find s.cache p = some v)
    (hstale : ¬ sub64 t1 v.timestamp < CACHE_LIFETIME_MS)
    (hfresh : realAi ≠ v.ai) :
    (getaddrinfo s p t1 realRet realAi t2).realCalled = true ∧
    (getaddrinfo s p t1 realRet realAi t2).res ≠ some v.ai ∧
    Assoc.find (getaddrinfo s p t1 realRet realAi t2).state.params v.ai = none ∧
    (∀ e, Assoc.find (getaddrinfo s p t1 realRet realAi t2).state.cache p = some e →
      e.ai ≠ v.ai) := by
  obtain ⟨sEv, hloc, hscache, hsparams⟩ :
      ∃ sEv : CacheState, gai_locked1 s p t1 = (sEv, .miss) ∧
        sEv.cache = Assoc.erase s.cache p ∧ sEv.params = Assoc.erase s.params v.ai :=
    ⟨_, gai_locked1_stale s p t1 v hv hstale, rfl, rfl⟩
  have hcm : Assoc.find sEv.cache p = none := by
    rw [hscache]
    simp [Assoc.find_erase]
  rw [getaddrinfo_of_miss s p t1 realRet realAi t2 sEv hloc]
  by_cases hr : realRet < 0
  · rw [if_pos hr]
    refine ⟨rfl, by simp, ?_, ?_⟩
    · show Assoc.find sEv.params v.ai = none
      rw [hsparams]
      simp [Assoc.find_erase]
    · intro e he
      have he2 : Assoc.find sEv.cache p = some e := he
      rw [hcm] at he2
      exact absurd he2 (by simp)
  · rw [if_neg hr]
    obtain ⟨hgc, hgp, hgr, hgd⟩ := gai_locked2_no_race sEv p realAi realRet t2 hcm
    refine ⟨rfl, by simp [hfresh], ?_, ?_⟩
    · show Assoc.find (gai_locked2 sEv p realAi realRet t2).params v.ai = none
      rw [hgp, Assoc.find_insert, if_neg (Ne.symm hfresh), hsparams]
      simp [Assoc.find_erase]
    · intro e he
      have he2 : Assoc.find (gai_locked2 sEv p realAi realRet t2).cache p = some e := he
      rw [hgc, Assoc.find_insert, if_pos rfl] at he2
      injection he2 with he2
      subst he2
      exact hfresh

/-- Witness for C5: resolve of `pKey` cached at time 0, re-resolved at
time 1000 (entry exactly TTL old) with fresh handle 6. -/
theorem c5_expired_entry_evicted_and_refreshed_witness :
    (getaddrinfo (getaddrinfo initState pKey 0 0 5 0).state pKey 1000 0 6 1000).realCalled =
      true ∧
    (getaddrinfo (getaddrinfo initState pKey 0 0 5 0).state pKey 1000 0 6 1000).res ≠
      some (Response.ai ⟨0, 5, 0⟩) ∧
    Assoc.find (getaddrinfo (getaddrinfo initState pKey 0 0 5 0).state
      pKey 1000 0 6 1000).state.params (Response.ai ⟨0, 5, 0⟩) = none ∧
    (∀ e, Assoc.find (getaddrinfo (getaddrinfo initState pKey 0 0 5 0).state
      pKey 1000 0 6 1000).state.cache pKey = some e → e.ai ≠ Response.ai ⟨0, 5, 0⟩) :=
  c5_expired_entry_evicted_and_refreshed (getaddrinfo initState pKey 0 0 5 0).state pKey
    1000 0 6 1000 ⟨0, 5, 0⟩ (by decide) (by decide) (by decide)

/-- Claim C6: when the real resolver is invoked and fails (negative
status), the status is returned verbatim and nothing is created or
updated: the key ends with no cache entry, the reference counts and the
queue are untouched, and the reverse index gains no binding. -/
theorem c6_failure_returned_verbatim_not_cached (s : CacheState) (p : GetAddrInfoParams)
    (t1 : Nat) (realRet : Int) (realAi t2 : Nat)
    (hneg : realRet < 0)
    (hcalled : (getaddrinfo s p t1 realRet realAi t2).realCalled = true) :
    (getaddrinfo s p t1 realRet realAi t2).ret = realRet ∧
    (getaddrinfo s p t1 realRet realAi t2).res = none ∧
    Assoc.find (getaddrinfo s p t1 realRet realAi t2).state.cache p = none ∧
    (getaddrinfo s p t1 realRet realAi t2).state.refCounts = s.refCounts ∧
    (getaddrinfo s p t1 realRet realAi t2).state.deferQueue = s.deferQueue ∧
    (∀ x k, Assoc.find (getaddrinfo s p t1 realRet realAi t2).state.params x = some k →
      Assoc.find s.params x = some k) := by
  rcases hg : gai_locked1 s p t1 with ⟨s1, out⟩
  cases out with
  | hit ai rv =>
    exfalso
    simp [getaddrinfo, hg] at hcalled
  | miss =>
    obtain ⟨hc, hrc, hdq, hpar⟩ := gai_locked1_miss s p t1 s1 hg
    simp only [getaddrinfo, hg, if_pos hneg]
    exact ⟨trivial, trivial, hc, hrc, hdq, hpar⟩

/-- Witness for C6: a failing real resolve (status −2) from the empty
state. -/
theorem c6_failure_returned_verbatim_not_cached_witness :
    (getaddrinfo initState pKey 0 (-2) 5 0).ret = -2 ∧
    (getaddrinfo initState pKey 0 (-2) 5 0).res = none ∧
    Assoc.find (getaddrinfo initState pKey 0 (-2) 5 0).state.cache pKey = none ∧
    (getaddrinfo initState pKey 0 (-2) 5 0).state.refCounts = initState.refCounts ∧
    (getaddrinfo initState pKey 0 (-2) 5 0).state.deferQueue = initState.deferQueue ∧
    (∀ x k, Assoc.find (getaddrinfo initState pKey 0 (-2) 5 0).state.params x = some k →
      Assoc.find initState.params x = some k) :=
  c6_failure_returned_verbatim_not_cached initState pKey 0 (-2) 5 0 (by decide) (by decide)

/-- Claim C8: releasing a handle with no tracked reference-count record
is reported via a diagnostic, changes no state at all, and the
intercepted call returns normally (here: the function is total and
yields exactly the unchanged state).  The queue-length hypothesis holds
in every reachable state, where the queue never exceeds capacity at
rest. -/
theorem c8_unknown_release_reported_noop (s : CacheState) (ai : Nat)
    (hu : Assoc.find s.refCounts ai = none)
    (hq : s.deferQueue.length ≤ DEFER_CALL_COUNT) :
    freeaddrinfo s ai = ⟨s, none, ["Logic error: deleting an unknown pointer"]⟩ := by
  have hdef : defer_delete_ptr s ai = (s, ["Logic error: deleting an unknown pointer"]) := by
    unfold defer_delete_ptr
    rw [hu]
  unfold freeaddrinfo
  rw [hdef]
  simp only
  rw [if_neg (by omega)]

/-- Witness for C8: releasing never-borrowed handle 7 from the empty
state. -/
theorem c8_unknown_release_reported_noop_witness :
    freeaddrinfo initState 7 =
      ⟨initState, none, ["Logic error: deleting an unknown pointer"]⟩ :=
  c8_unknown_release_reported_noop initState 7 (by decide) (by decide)

/-- Claim C9 is refuted by the code: canonicalization is not total.
`from_raw` decodes the C string with `CStr::to_str().unwrap()`, which
panics (aborting the host process across the FFI boundary) whenever the
bytes are not valid UTF-8, e.g. the single byte 0xFF.  The model returns
`none` exactly where the Rust code panics. -/
theorem c9_canonicalize_panics_on_invalid_utf8 :
    from_raw (some [255]) = none ∧
    GetAddrInfoParams.new (some [255]) none none = none ∧
    GetAddrInfoParams.new none (some [192, 128]) none = none ∧
    GetAddrInfoParams.new none none none = some ⟨[], [], 40, 0, 0, 0⟩ := by
  decide

/-- Claim C10: a release on a tracked handle decrements its borrow count
unconditionally — no floor at zero, so over-release drives it negative —
and the reclamation check physically frees a dequeued handle whenever
its count is not strictly positive, negative included. -/
theorem c10_release_decrements_without_floor :
    (∀ (s : CacheState) (ai : Nat) (c : RefCount),
      Assoc.find s.refCounts ai = some c →
      Assoc.find (defer_delete_ptr s ai).1.refCounts ai = some ⟨c.refs - 1, true⟩) ∧
    (∀ (s : CacheState) (ai h : Nat) (rest : List Nat) (c : RefCount),
      (defer_delete_ptr s ai).1.deferQueue = h :: rest →
      DEFER_CALL_COUNT < (defer_delete_ptr s ai).1.deferQueue.length →
      Assoc.find (defer_delete_ptr s ai).1.refCounts h = some c →
      c.refs ≤ 0 →
      (freeaddrinfo s ai).freed = some h) := by
  constructor
  · intro s ai c hc
    unfold defer_delete_ptr
    simp only [hc]
    by_cases hd : c.deleted = true
    · rw [if_pos hd]
      simp [Assoc.find_insert, hd]
    · rw [if_neg hd]
      simp [Assoc.find_insert]
  · intro s ai h rest c hq hlen hc hle
    unfold freeaddrinfo get_ref_count
    simp only [hq] at hlen ⊢
    rw [if_pos hlen]
    simp only [hc]
    rw [if_neg (by omega)]

/-- Witness for C10: handle 3 with count already at zero is released
again (count −1) and is still physically freed when dequeued. -/
theorem c10_release_decrements_without_floor_witness :
    Assoc.find (defer_delete_ptr ⟨[], [], [(3, ⟨0, true⟩)], []⟩ 3).1.refCounts 3 =
      some ⟨(0 : Int) - 1, true⟩ ∧
    (freeaddrinfo ⟨[], [], [(3, ⟨0, true⟩)], List.replicate 1001 3⟩ 3).freed = some 3 :=
  ⟨c10_release_decrements_without_floor.1 ⟨[], [], [(3, ⟨0, true⟩)], []⟩ 3 ⟨0, true⟩
      (by decide),
   c10_release_decrements_without_floor.2 ⟨[], [], [(3, ⟨0, true⟩)], List.replicate 1001 3⟩
      3 3 (List.replicate 1000 3) ⟨-1, true⟩ (by decide) (by decide) (by decide) (by decide)⟩

/-- Claim C4: a handle has a Reverse Index (`PARAMS`) entry iff it is
the live value of some Resolution Cache entry (and the two maps agree on
the owning key); the correspondence is preserved by every atomic locked
section — cache hit and stale eviction (`gai_locked1`), fresh and racing
insert (`gai_locked2`, assuming the real resolver returns a handle that
is not currently a live cache value), and the whole release path
including physical reclamation (`freeaddrinfo`). -/
theorem c4_reverse_index_iff_live_cache :
    (∀ (s : CacheState) (p : GetAddrInfoParams) (t1 : Nat),
      ParamsCacheInv s → ParamsCacheInv (gai_locked1 s p t1).1) ∧
    (∀ (s : CacheState) (p : GetAddrInfoParams) (a : Nat) (r : Int) (t2 : Nat),
      ParamsCacheInv s → Assoc.find s.params a = none →
      ParamsCacheInv (gai_locked2 s p a r t2)) ∧
    (∀ (s : CacheState) (ai : Nat),
      ParamsCacheInv s → ParamsCacheInv (freeaddrinfo s ai).state) :=
  ⟨paramsCacheInv_gai_locked1, paramsCacheInv_gai_locked2, paramsCacheInv_freeaddrinfo⟩

/-- Witness for C4 at the empty initial state. -/
theorem c4_reverse_index_iff_live_cache_witness :
    ParamsCacheInv (gai_locked1 initState pKey 0).1 ∧
    ParamsCacheInv (gai_locked2 initState pKey 5 0 0) ∧
    ParamsCacheInv (freeaddrinfo initState 5).state :=
  have h0 : ParamsCacheInv initState := by
    constructor <;> intro a b hab <;> simp [initState, Assoc.find] at hab
  ⟨c4_reverse_index_iff_live_cache.1 initState pKey 0 h0,
   c4_reverse_index_iff_live_cache.2.1 initState pKey 5 0 0 h0 rfl,
   c4_reverse_index_iff_live_cache.2.2 initState 5 h0⟩

/-- Claim C7: the deferred-reclamation queue never holds two entries for
the same handle — every intercepted call preserves the invariant that
the queue is duplicate-free and each enqueued handle's `deleted` flag is
set — and a release enqueues the handle exactly when its `deleted` flag
flips from false to true (subsequent releases never enqueue again), the
flag being set afterwards in every case. -/
theorem c7_queue_at_most_one_entry_per_handle :
    (∀ (s : CacheState) (op : Op), QueueInv s → QueueInv (step s op).1) ∧
    (∀ (s : CacheState) (ai : Nat) (c : RefCount),
      Assoc.find s.refCounts ai = some c →
      (defer_delete_ptr s ai).1.deferQueue =
        (if c.deleted = true then s.deferQueue else s.deferQueue ++ [ai]) ∧
      (Assoc.find (defer_delete_ptr s ai).1.refCounts ai).map RefCount.deleted =
        some true) := by
  constructor
  · intro s op h
    cases op with
    | resolve p t1 r a t2 => exact queueInv_getaddrinfo s p t1 r a t2 h
    | free ai => exact queueInv_freeaddrinfo s ai h
  · intro s ai c hc
    unfold defer_delete_ptr
    simp only [hc]
    by_cases hd : c.deleted = true
    · rw [if_pos hd, if_pos hd]
      constructor
      · rfl
      · show (Assoc.find (Assoc.insert s.refCounts ai ⟨c.refs - 1, c.deleted⟩) ai).map
          RefCount.deleted = some true
        rw [Assoc.find_insert, if_pos rfl]
        simp [hd]
    · rw [if_neg hd, if_neg hd]
      constructor
      · rfl
      · show (Assoc.find (Assoc.insert s.refCounts ai ⟨c.refs - 1, true⟩) ai).map
          RefCount.deleted = some true
        rw [Assoc.find_insert, if_pos rfl]
        simp

/-- Witness for C7: a release from the empty state, and a first release
of a handle with one borrow, which enqueues it exactly once. -/
theorem c7_queue_at_most_one_entry_per_handle_witness :
    QueueInv (step initState (Op.free 5)).1 ∧
    ((defer_delete_ptr ⟨[], [], [(5, ⟨1, false⟩)], []⟩ 5).1.deferQueue = [5] ∧
     (Assoc.find (defer_delete_ptr ⟨[], [], [(5, ⟨1, false⟩)], []⟩ 5).1.refCounts 5).map
       RefCount.deleted = some true) :=
  have h0 : QueueInv initState := by
    constructor
    · exact List.nodup_nil
    · intro x hx
      simp [initState] at hx
  ⟨c7_queue_at_most_one_entry_per_handle.1 initState (Op.free 5) h0,
   c7_queue_at_most_one_entry_per_handle.2 ⟨[], [], [(5, ⟨1, false⟩)], []⟩ 5 ⟨1, false⟩ rfl⟩

/-- Claim C2: for every handle `h` and every `N ≥ 1`, in the scenario of
`N` resolve calls returning `h` followed by `N` release calls on `h` and
then enough unrelated traffic that queue capacity forces the eviction of
`h` with its borrow count at zero: no real release happens before (or
at) the `N`-th release, the real release is then invoked on `h` exactly
once and on nothing else, and `h`'s `RefCountEntry` is fully removed. -/
theorem c2_n_resolves_n_releases_one_real_free (N h : Nat) (hN : 1 ≤ N) :
    (run initState (resolveOps N h ++ releaseOps N h)).2 = [] ∧
    (run initState (scenario N h)).2 = [h] ∧
    Assoc.find (run initState (scenario N h)).1.refCounts h = none := by
  have hAB := run_resolve_release N h hN
  have hstep1000 : step (stateC h 999)
      (Op.resolve qKey (1000 * 1000) 0 (h + 1000) (1000 * 1000)) =
      (stateCr h 1000, none) := by
    have hgen := step_fill_resolve h 999 (by omega) (by omega)
    have h999 : (999 : Nat) + 1 = 1000 := by norm_num
    rw [h999] at hgen
    exact hgen
  have hfill : run (stateB h 0) (fillOps h 1000) =
      ((⟨[(qKey, ⟨1000 * 1000, h + 1000, 0⟩)], [(h + 1000, qKey)],
        Assoc.erase (rcC h 1000) h, qC h 1000⟩ : CacheState), [h]) := by
    rw [show fillOps h 1000 = fillOps h 999 ++ fillPair h 1000 from rfl, run_append,
      runC h 999 (by omega) (by omega)]
    simp only [fillPair, run_cons, run_nil, hstep1000, step_fill_free_final h]
    rfl
  have hsc : run initState (scenario N h) =
      ((⟨[(qKey, ⟨1000 * 1000, h + 1000, 0⟩)], [(h + 1000, qKey)],
        Assoc.erase (rcC h 1000) h, qC h 1000⟩ : CacheState), [h]) := by
    rw [show scenario N h =
      (resolveOps N h ++ releaseOps N h) ++ fillOps h 1000 from rfl]
    rw [run_append, hAB]
    show ((run (stateB h 0) (fillOps h 1000)).1,
      ([] : List Nat) ++ (run (stateB h 0) (fillOps h 1000)).2) = _
    rw [hfill]
    rfl
  refine ⟨by rw [hAB], by rw [hsc], ?_⟩
  rw [hsc]
  show Assoc.find (Assoc.erase (rcC h 1000) h) h = none
  rw [Assoc.find_erase, if_pos rfl]

/-- Witness for C2 at `N = 1`, `h = 0`. -/
theorem c2_n_resolves_n_releases_one_real_free_witness :
    (run initState (resolveOps 1 0 ++ releaseOps 1 0)).2 = [] ∧
    (run initState (scenario 1 0)).2 = [0] ∧
    Assoc.find (run initState (scenario 1 0)).1.refCounts 0 = none :=
  c2_n_resolves_n_releases_one_real_free 1 0 (by decide)

end LibNSCache
